import Mathlib

/-!
Shallow embedding of `src/simulation.py` (censim-interactive): a stochastic
centromere repeat-array evolution engine.  Sequences are lists of repeat
units (each a list of nucleotide characters); the process-wide random state
(`random` / `np.random`, both reseeded by `CentromereSimulator.__init__`)
is modelled as an explicit state value of an abstract type `σ` threaded
through every sampling call, with the library samplers (`np.random.poisson`,
`random.randint`, `random.choice`) abstracted as a `RandomModel` whose
proof fields record the documented guarantees of those library functions.
Python exceptions are modelled by the `.err` result; the unbounded
`while` loop of `_apply_indels` is modelled with explicit fuel, `.spin`
marking an execution that is still looping when the fuel runs out.
-/

/-- `BASES = ['A', 'C', 'G', 'T']` from the source. -/
def BASES : List Char := ['A', 'C', 'G', 'T']

/-- The default CEN178 monomer string from the source, as a character list. -/
def DEFAULT_MONOMER : List Char :=
  "AGTATAAGAACTTAAACCGCAACCCGATCTTAAAAGCCTAAGTAGTGTTTCCTTGTTAGAAGACACAAAGCCAAAGACTCATATGGACTTTGGCTACACCATGAAAGCTTTGAGAAGCAAGAAGAAGGTTGGTTAGTGTTTTGGAGTCGAATATGACTTGATGTCATGTGTATGATTG".toList

/-- `RepeatSequence`: a repeat array stored as a list of units
(`units : List[bytearray]`) plus the unit length `repeat_size`. -/
structure RepeatSequence where
  units : List (List Char)
  repeat_size : Nat
deriving DecidableEq

namespace RepeatSequence

/-- `RepeatSequence.from_monomer`: `repeat_size = len(monomer)` and
`units = [bytearray(monomer) for _ in range(num_copies)]`; Python's
`range` of a non-positive count is empty, which `Int.toNat` captures. -/
def from_monomer (monomer : List Char) (num_copies : Int) : RepeatSequence :=
  ⟨List.replicate num_copies.toNat monomer, monomer.length⟩

/-- `RepeatSequence.__len__`: `0` when `units` is empty, else
`len(units) * repeat_size`. -/
def lenBp (rs : RepeatSequence) : Nat :=
  if rs.units = [] then 0 else rs.units.length * rs.repeat_size

/-- `RepeatSequence.num_units`. -/
def num_units (rs : RepeatSequence) : Nat := rs.units.length

/-- `RepeatSequence.__getitem__`: character at base-pair position `idx`
(`unit_num = idx // repeat_size`, `pos_in_unit = idx % repeat_size`).
`none` models the Python exceptions possible here (a division by a zero
`repeat_size`, or an index outside the stored data). -/
def getItem (rs : RepeatSequence) (idx : Nat) : Option Char :=
  if rs.repeat_size = 0 then none
  else match rs.units.get? (idx / rs.repeat_size) with
    | none => none
    | some u => u.get? (idx % rs.repeat_size)

/-- `RepeatSequence.__setitem__`: writes one character at base-pair
position `idx`; `none` models the Python exceptions, as in `getItem`. -/
def setItem (rs : RepeatSequence) (idx : Nat) (c : Char) : Option RepeatSequence :=
  if rs.repeat_size = 0 then none
  else match rs.units.get? (idx / rs.repeat_size) with
    | none => none
    | some u =>
      if idx % rs.repeat_size < u.length then
        some ⟨rs.units.set (idx / rs.repeat_size) (u.set (idx % rs.repeat_size) c),
              rs.repeat_size⟩
      else none

/-- `RepeatSequence.duplicate_units(start, end)`:
`units[end:end] = [copy of u for u in units[start:end]]`.  A Python slice
`units[start:end]` is `(units.drop start).take (end - start)` and the
insertion point `end` is clamped to the length, which `take`/`drop` match. -/
def duplicate_units (rs : RepeatSequence) (s e : Nat) : RepeatSequence :=
  ⟨rs.units.take e ++ (rs.units.drop s).take (e - s) ++ rs.units.drop e,
   rs.repeat_size⟩

/-- `RepeatSequence.delete_units(start, end)`: `del units[start:end]`.
Python deletes nothing when `end < start`, hence the `max`. -/
def delete_units (rs : RepeatSequence) (s e : Nat) : RepeatSequence :=
  ⟨rs.units.take s ++ rs.units.drop (max s e), rs.repeat_size⟩

end RepeatSequence

/-- `SimulationParams` with the source's defaults.  The Python float rates
are embedded as rationals; the exact decimal literals of the source are
representable. -/
structure SimulationParams where
  indel_rate : ℚ := 0.5
  indel_size_lambda : ℚ := 7.6
  snp_rate : ℚ := 0.1
  min_array_size : Int := 300
  max_array_size : Int := 50000
  bounding_enabled : Bool := true
  initial_size : Int := 10000
  initial_monomer : List Char := DEFAULT_MONOMER
  max_consecutive_failures : Nat := 5000
deriving DecidableEq

/-- `MutationEvent` record. -/
structure MutationEvent where
  generation : Nat
  event_type : String
  position : Nat
  size : Nat := 1
  details : String := ""
deriving DecidableEq

/-- `SimulationState` with the source's defaults (`seq=None`). -/
structure SimulationState where
  generation : Nat := 0
  seq : Option RepeatSequence := none
  history : List MutationEvent := []
  collapsed : Bool := false
deriving DecidableEq

namespace SimulationState

/-- `SimulationState.size`: `seq.num_units() if seq else 0`. -/
def size (st : SimulationState) : Nat :=
  match st.seq with
  | some q => q.num_units
  | none => 0

end SimulationState

/-- The state `SimulationState()` a fresh, never-initialized engine owns. -/
def freshState : SimulationState := {}

/-- Abstraction of the process-wide random state of type `σ` and of the
library samplers the source calls.  The proof fields record documented
guarantees of the corresponding library functions: `random.randint(lo, hi)`
is at most `hi` when `lo <= hi`; `random.choice(l)` returns a member of a
non-empty `l`; `np.random.poisson(0)` is `0`. -/
structure RandomModel (σ : Type) where
  seed : Nat → σ
  poisson : ℚ → σ → Nat × σ
  randint : Nat → Nat → σ → Nat × σ
  choice : List Char → σ → Char × σ
  choiceBool : σ → Bool × σ
  randint_le : ∀ lo hi g, lo ≤ hi → (randint lo hi g).1 ≤ hi
  choice_mem : ∀ l g, l ≠ [] → (choice l g).1 ∈ l
  poisson_zero : ∀ lam g, lam = 0 → (poisson lam g).1 = 0

/-- Result of running a piece of engine code: a normal return, a Python
exception (`err`), or a loop still running when its fuel ran out (`spin`). -/
inductive Res (α : Type) where
  | ok : α → Res α
  | err : Res α
  | spin : Res α
deriving DecidableEq

/-- The engine object: its params and its state (the random state is NOT
a field — the source draws from process-wide `random` / `np.random`). -/
structure CentromereSimulator where
  params : SimulationParams
  state : SimulationState

/-- `CentromereSimulator.__init__(params, seed)`: stores the params, a
default `SimulationState()`, and — when a seed is given — reseeds the
process-wide random state (`random.seed(seed)`; `np.random.seed(seed)`),
discarding whatever global random state existed before. -/
def mkSimulator {σ : Type} (R : RandomModel σ) (p : SimulationParams)
    (seed : Option Nat) (g : σ) : CentromereSimulator × σ :=
  (⟨p, {}⟩, match seed with | some s => R.seed s | none => g)

/-- `CentromereSimulator.initialize()`: fresh state whose array is
`from_monomer(initial_monomer, initial_size)`. -/
def initState (p : SimulationParams) : SimulationState :=
  { generation := 0
    seq := some (RepeatSequence.from_monomer p.initial_monomer p.initial_size)
    history := []
    collapsed := false }

/-- The `details` f-string of a SNP event: `f"{old}->{new}"`. -/
def snpDetails (a b : Char) : String := toString a ++ "->" ++ toString b

/-- The `details` f-string of a duplication event. -/
def dupDetails (a b : Nat) : String :=
  "units " ++ toString a ++ "-" ++ toString b ++ " duplicated"

/-- The `details` f-string of a deletion event. -/
def delDetails (a b : Nat) : String :=
  "units " ++ toString a ++ "-" ++ toString b ++ " deleted"

/-- The `for _ in range(n_snps)` loop body of `_apply_snp`: break on an
empty array, then `bp_pos = random.randint(0, len(seq)-1)` (a length of
zero would make Python's `randint(0, -1)` raise, hence `.err`),
`old = seq[bp_pos]`, `new = random.choice([b for b in BASES if b != old])`,
`seq[bp_pos] = new`, emit the event. -/
def snpIterate {σ : Type} (R : RandomModel σ) :
    Nat → SimulationState → σ → Res (List MutationEvent × SimulationState × σ)
  | 0, st, g => .ok ([], st, g)
  | Nat.succ n, st, g =>
    if st.size = 0 then .ok ([], st, g)
    else
      match st.seq with
      | none => .err
      | some q =>
        if q.lenBp = 0 then .err
        else
          let r1 := R.randint 0 (q.lenBp - 1) g
          match q.getItem r1.1 with
          | none => .err
          | some old =>
            let r2 := R.choice (BASES.filter (fun b => b != old)) r1.2
            match q.setItem r1.1 r2.1 with
            | none => .err
            | some q2 =>
              let e : MutationEvent :=
                ⟨st.generation, "snp", r1.1, 1, snpDetails old r2.1⟩
              match snpIterate R n { st with seq := some q2 } r2.2 with
              | .ok (evs, st2, g2) => .ok (e :: evs, st2, g2)
              | .err => .err
              | .spin => .spin

/-- `CentromereSimulator._apply_snp`: `n_snps = np.random.poisson(snp_rate)`
then the SNP loop. -/
def applySnp {σ : Type} (R : RandomModel σ) (p : SimulationParams)
    (st : SimulationState) (g : σ) : Res (List MutationEvent × SimulationState × σ) :=
  let r := R.poisson p.snp_rate g
  snpIterate R r.1 st r.2

/-- The `while count < n_indels` loop of `_apply_indels`, with explicit
fuel.  Each iteration: collapse and break on an empty array; draw
`is_dup`, `indel_size = max(1, poisson(indel_size_lambda))`,
`unit_start = randint(0, size-1)`, `unit_end = unit_start + indel_size`.
An out-of-range attempt (`unit_end > size`) increments
`consecutive_failures` and — only in this branch — collapses and breaks
when the counter has reached `max_consecutive_failures`; a duplication
rejected by `max_array_size` or a deletion rejected by `min_array_size`
increments the counter and just continues.  An accepted edit resets the
counter and counts toward `n_indels`. -/
def indelIterate {σ : Type} (R : RandomModel σ) (p : SimulationParams) (nIndels : Nat) :
    Nat → Nat → Nat → SimulationState → σ → Res (List MutationEvent × SimulationState × σ)
  | 0, count, _, st, g =>
    if nIndels ≤ count then .ok ([], st, g) else .spin
  | Nat.succ fuel, count, failures, st, g =>
    if nIndels ≤ count then .ok ([], st, g)
    else if st.size = 0 then .ok ([], { st with collapsed := true }, g)
    else
      match st.seq with
      | none => .err
      | some q =>
        let r1 := R.choiceBool g
        let r2 := R.poisson p.indel_size_lambda r1.2
        let indelSize := max 1 r2.1
        let r3 := R.randint 0 (st.size - 1) r2.2
        let unitEnd := r3.1 + indelSize
        if st.size < unitEnd then
          if p.max_consecutive_failures ≤ failures + 1 then
            .ok ([], { st with collapsed := true }, r3.2)
          else
            indelIterate R p nIndels fuel count (failures + 1) st r3.2
        else if r1.1 then
          if p.bounding_enabled && decide (p.max_array_size < (st.size : Int) + indelSize) then
            indelIterate R p nIndels fuel count (failures + 1) st r3.2
          else
            let e : MutationEvent :=
              ⟨st.generation, "dup", r3.1, indelSize, dupDetails r3.1 unitEnd⟩
            match indelIterate R p nIndels fuel (count + 1) 0
                { st with seq := some (q.duplicate_units r3.1 unitEnd) } r3.2 with
            | .ok (evs, st2, g2) => .ok (e :: evs, st2, g2)
            | .err => .err
            | .spin => .spin
        else
          if p.bounding_enabled && decide ((st.size : Int) - indelSize < p.min_array_size) then
            indelIterate R p nIndels fuel count (failures + 1) st r3.2
          else
            let e : MutationEvent :=
              ⟨st.generation, "del", r3.1, indelSize, delDetails r3.1 unitEnd⟩
            match indelIterate R p nIndels fuel (count + 1) 0
                { st with seq := some (q.delete_units r3.1 unitEnd) } r3.2 with
            | .ok (evs, st2, g2) => .ok (e :: evs, st2, g2)
            | .err => .err
            | .spin => .spin

/-- `CentromereSimulator._apply_indels`: draw `n_indels`, run the loop,
then the unconditional post-loop check
`if size < min_array_size: collapsed = True`. -/
def applyIndels {σ : Type} (R : RandomModel σ) (p : SimulationParams) (fuel : Nat)
    (st : SimulationState) (g : σ) : Res (List MutationEvent × SimulationState × σ) :=
  let r := R.poisson p.indel_rate g
  match indelIterate R p r.1 fuel 0 0 st r.2 with
  | .ok (evs, st2, g2) =>
    .ok (evs,
         if (st2.size : Int) < p.min_array_size then { st2 with collapsed := true } else st2,
         g2)
  | .err => .err
  | .spin => .spin

/-- `CentromereSimulator.step()`: no-op on a collapsed state; otherwise
increment the generation, run the SNP phase then the indel phase, and
append the events to `history`. -/
def step {σ : Type} (R : RandomModel σ) (p : SimulationParams) (fuel : Nat)
    (st : SimulationState) (g : σ) : Res (List MutationEvent × SimulationState × σ) :=
  if st.collapsed then .ok ([], st, g)
  else
    let st1 := { st with generation := st.generation + 1 }
    match applySnp R p st1 g with
    | .ok (ev1, st2, g2) =>
      match applyIndels R p fuel st2 g2 with
      | .ok (ev2, st3, g3) =>
        .ok (ev1 ++ ev2, { st3 with history := st3.history ++ (ev1 ++ ev2) }, g3)
      | .err => .err
      | .spin => .spin
    | .err => .err
    | .spin => .spin

/-- `CentromereSimulator.run(generations)`: call `step()` up to `n`
times, breaking as soon as the state is collapsed. -/
def run {σ : Type} (R : RandomModel σ) (p : SimulationParams) (fuel : Nat) :
    Nat → SimulationState → σ → Res (SimulationState × σ)
  | 0, st, g => .ok (st, g)
  | Nat.succ n, st, g =>
    if st.collapsed then .ok (st, g)
    else
      match step R p fuel st g with
      | .ok (_, st2, g2) => run R p fuel n st2 g2
      | .err => .err
      | .spin => .spin

/-- One call a driver can make on an engine. -/
inductive DriveCall where
  | initCall : DriveCall
  | stepCall : DriveCall
  | runCall : Nat → DriveCall

/-- Drive one engine through a sequence of `initialize`/`step`/`run`
calls, threading the process-wide random state. -/
def drive {σ : Type} (R : RandomModel σ) (fuel : Nat) :
    List DriveCall → CentromereSimulator → σ → Res (CentromereSimulator × σ)
  | [], sim, g => .ok (sim, g)
  | c :: cs, sim, g =>
    match c with
    | .initCall => drive R fuel cs { sim with state := initState sim.params } g
    | .stepCall =>
      match step R sim.params fuel sim.state g with
      | .ok (_, st2, g2) => drive R fuel cs { sim with state := st2 } g2
      | .err => .err
      | .spin => .spin
    | .runCall n =>
      match run R sim.params fuel n sim.state g with
      | .ok (st2, g2) => drive R fuel cs { sim with state := st2 } g2
      | .err => .err
      | .spin => .spin

/-- States (with their random state) reachable from `st0`/`g0` through
completed `step()` calls: the generation boundaries of an execution. -/
inductive Reachable {σ : Type} (R : RandomModel σ) (p : SimulationParams)
    (st0 : SimulationState) (g0 : σ) : SimulationState → σ → Prop where
  | refl : Reachable R p st0 g0 st0 g0
  | next {st g fuel ev st' g'} : Reachable R p st0 g0 st g →
      step R p fuel st g = .ok (ev, st', g') → Reachable R p st0 g0 st' g'

/-- Every stored unit has length exactly `repeat_size` (trivially true
for an engine whose array is not yet initialized). -/
def seqWF (st : SimulationState) : Bool :=
  match st.seq with
  | none => true
  | some q => q.units.all (fun u => u.length == q.repeat_size)

/-- `bp_length() == unit_count() * repeat_size` for the engine's array. -/
def bpOK (st : SimulationState) : Bool :=
  match st.seq with
  | none => true
  | some q => q.lenBp == q.num_units * q.repeat_size

/-- Base-pair length of the engine's array (`len(state.seq)`, `0` when
there is no array). -/
def stBpLen (st : SimulationState) : Nat :=
  match st.seq with
  | some q => q.lenBp
  | none => 0

/-- One SNP as the source applies it: the event's position was read from
the current array (`old = seq[bp_pos]`, the recorded old base), the array
of the successor state is exactly the current array with that base-pair
position overwritten by the recorded new base (`seq[bp_pos] = new`), the
new base is one of `BASES` and differs from the old one, and the event
records kind `snp`, size 1, the current generation and `old->new`. -/
def snpApplied (st st2 : SimulationState) (e : MutationEvent) : Prop :=
  ∃ q q2 a b, st.seq = some q ∧ st2 = { st with seq := some q2 } ∧
    q.getItem e.position = some a ∧ q.setItem e.position b = some q2 ∧
    b ∈ BASES ∧ b ≠ a ∧
    e.generation = st.generation ∧ e.event_type = "snp" ∧ e.size = 1 ∧
    e.details = snpDetails a b

/-- The event list of a SNP phase is a chain of `snpApplied` mutations
leading from the entry state to the exit state. -/
inductive SnpChain : SimulationState → List MutationEvent → SimulationState → Prop where
  | nil (st : SimulationState) : SnpChain st [] st
  | cons {st st2 st' : SimulationState} {e : MutationEvent} {evs : List MutationEvent} :
      snpApplied st st2 e → SnpChain st2 evs st' → SnpChain st (e :: evs) st'

/-- The events and resulting state of a `step()` result, with the random
state dropped; `none` when the step raised or span. -/
def stepView {σ : Type} (r : Res (List MutationEvent × SimulationState × σ)) :
    Option (List MutationEvent × SimulationState) :=
  match r with
  | .ok (ev, st, _) => some (ev, st)
  | .err => none
  | .spin => none

/-- A concrete `RandomModel` over prescribed streams of naturals: every
sampler consumes the head of the stream (`0` once the stream is spent). -/
def streamModel : RandomModel (List Nat) where
  seed := fun _ => [1, 0, 0, 2, 0, 0, 0, 0]
  poisson := fun lam g => (if lam = 0 then 0 else g.headD 0, g.tail)
  randint := fun lo hi g => (lo + g.headD 0 % (hi - lo + 1), g.tail)
  choice := fun l g =>
    (if h : l.length = 0 then 'A'
     else l.get ⟨g.headD 0 % l.length, Nat.mod_lt _ (Nat.pos_of_ne_zero h)⟩,
     g.tail)
  choiceBool := fun g => (decide (g.headD 0 % 2 = 1), g.tail)
  randint_le := by
    intro lo hi g hle
    have h := Nat.mod_lt (g.headD 0) (y := hi - lo + 1) (by omega)
    simp only
    omega
  choice_mem := by
    intro l g hl
    have h : l.length ≠ 0 := by simpa using hl
    simp only [dif_neg h]
    exact List.get_mem _ _ _
  poisson_zero := by intro lam g h; simp [h]

/-- Parameters of the two-engine interference experiment. -/
def interfParams : SimulationParams :=
  { snp_rate := 1, indel_rate := 0, indel_size_lambda := 1,
    min_array_size := 1, max_array_size := 50000, bounding_enabled := true,
    initial_size := 2, initial_monomer := ['A', 'C'],
    max_consecutive_failures := 5 }

/-- Two engines built with the same seed inside one process, then each
given one `step()`: the first construction, the second construction, the
first engine's step, the second engine's step, all sharing the
process-wide random state. -/
def interfFirst : Res (List MutationEvent × SimulationState × List Nat) :=
  step streamModel interfParams 5 (initState interfParams)
    (mkSimulator streamModel interfParams (some 7)
      (mkSimulator streamModel interfParams (some 7) []).2).2

/-- The second engine's step, drawing from the random state the first
engine's step left behind. -/
def interfSecond : Res (List MutationEvent × SimulationState × List Nat) :=
  match interfFirst with
  | .ok (_, _, g) => step streamModel interfParams 5 (initState interfParams) g
  | .err => .err
  | .spin => .spin

/-- The history an engine holds after its step, `none` on a non-`ok` run. -/
def interfHist (r : Res (List MutationEvent × SimulationState × List Nat)) :
    Option (List MutationEvent) :=
  match r with
  | .ok (_, st, _) => some st.history
  | .err => none
  | .spin => none

/-- The forced-collapse scenario parameters of the spec (`min_array_size=5,
initial_size=5, indel_rate=10, bounding_enabled=True,
max_consecutive_failures=3`), with a one-character monomer. -/
def collapseParams : SimulationParams :=
  { indel_rate := 10, snp_rate := 0, indel_size_lambda := 8,
    min_array_size := 5, max_array_size := 50000, bounding_enabled := true,
    initial_size := 5, initial_monomer := ['A'],
    max_consecutive_failures := 3 }

/-- A small bounded configuration with both rates zero. -/
def smallParams : SimulationParams :=
  { snp_rate := 0, indel_rate := 0, indel_size_lambda := 1,
    min_array_size := 1, max_array_size := 10, bounding_enabled := true,
    initial_size := 2, initial_monomer := ['A'],
    max_consecutive_failures := 5 }

/-- A configuration exercising the SNP phase alone. -/
def snpParams : SimulationParams :=
  { snp_rate := 2, indel_rate := 0, indel_size_lambda := 1,
    min_array_size := 1, max_array_size := 10, bounding_enabled := true,
    initial_size := 2, initial_monomer := ['A', 'C'],
    max_consecutive_failures := 5 }

/-- A configuration with both mutation rates zero and three units. -/
def zeroRateParams : SimulationParams :=
  { snp_rate := 0, indel_rate := 0, indel_size_lambda := 1,
    min_array_size := 1, max_array_size := 10, bounding_enabled := true,
    initial_size := 3, initial_monomer := ['A'],
    max_consecutive_failures := 5 }

theorem lenBp_congr {q q2 : RepeatSequence} (hlen : q2.units.length = q.units.length)
    (hrs : q2.repeat_size = q.repeat_size) : q2.lenBp = q.lenBp := by
  unfold RepeatSequence.lenBp
  by_cases h : q.units = []
  · have h2 : q2.units = [] := List.length_eq_zero.mp (by rw [hlen, h]; rfl)
    simp [h, h2]
  · have h2 : q2.units ≠ [] := fun hh => h (List.length_eq_zero.mp (by rw [← hlen, hh]; rfl))
    simp [h, h2, hlen, hrs]

theorem setItem_props {q q2 : RepeatSequence} {i : Nat} {c : Char}
    (h : q.setItem i c = some q2) :
    q2.repeat_size = q.repeat_size ∧ q2.units.length = q.units.length ∧
    ((∀ u ∈ q.units, u.length = q.repeat_size) →
      ∀ u ∈ q2.units, u.length = q2.repeat_size) := by
  unfold RepeatSequence.setItem at h
  split at h
  · exact absurd h (by simp)
  · split at h
    · exact absurd h (by simp)
    · next u hg =>
      split at h
      · next hlt =>
        have hq2 := Option.some.inj h
        subst hq2
        refine ⟨rfl, List.length_set _ _ _, ?_⟩
        intro hWF u' hu'
        rcases List.mem_or_eq_of_mem_set hu' with hmem | heq
        · exact hWF u' hmem
        · subst heq
          rw [List.length_set]
          exact hWF u (List.get?_mem hg)
      · exact absurd h (by simp)

theorem seqWF_some (st : SimulationState) (q : RepeatSequence) (h : st.seq = some q) :
    seqWF st = true ↔ ∀ u ∈ q.units, u.length = q.repeat_size := by
  simp [seqWF, h, List.all_eq_true]

theorem bases_filter_ne_nil (a : Char) : BASES.filter (fun b => b != a) ≠ [] := by
  by_cases h : a = 'A'
  · subst h
    decide
  · refine List.ne_nil_of_mem (a := 'A') ?_
    rw [List.mem_filter]
    exact ⟨by decide, bne_iff_ne.mpr fun hh => h hh.symm⟩

theorem snpIterate_size_zero {σ : Type} (R : RandomModel σ) {n : Nat}
    {st : SimulationState} {g : σ} (h : st.size = 0) :
    snpIterate R n st g = .ok ([], st, g) := by
  cases n <;> simp [snpIterate, h]

theorem snpIterate_ok {σ : Type} {R : RandomModel σ} {n : Nat} {st : SimulationState}
    {g : σ} {evs : List MutationEvent} {st' : SimulationState} {g' : σ} :
    snpIterate R n st g = .ok (evs, st', g') →
    st'.size = st.size ∧ st'.collapsed = st.collapsed ∧
    st'.generation = st.generation ∧ st'.history = st.history ∧
    stBpLen st' = stBpLen st ∧
    (seqWF st = true → seqWF st' = true) ∧
    SnpChain st evs st' ∧
    (∀ e ∈ evs, e.event_type = "snp" ∧ e.size = 1 ∧ e.position < stBpLen st ∧
      ∃ a b, e.details = snpDetails a b ∧ b ∈ BASES ∧ b ≠ a) := by
  induction n generalizing st g evs st' g' with
  | zero =>
    intro h
    simp only [snpIterate, Res.ok.injEq, Prod.mk.injEq] at h
    obtain ⟨h1, h2, h3⟩ := h
    subst h1; subst h2; subst h3
    exact ⟨rfl, rfl, rfl, rfl, rfl, fun x => x, SnpChain.nil st, by simp⟩
  | succ n ih =>
    intro h
    by_cases hs : st.size = 0
    · rw [snpIterate_size_zero R hs] at h
      simp only [Res.ok.injEq, Prod.mk.injEq] at h
      obtain ⟨h1, h2, h3⟩ := h
      subst h1; subst h2; subst h3
      exact ⟨rfl, rfl, rfl, rfl, rfl, fun x => x, SnpChain.nil st, by simp⟩
    · cases hseq : st.seq with
      | none =>
        exact absurd (by simp [SimulationState.size, hseq]) hs
      | some q =>
        simp only [snpIterate, if_neg hs, hseq] at h
        by_cases hbp : q.lenBp = 0
        · rw [if_pos hbp] at h
          exact absurd h (by simp)
        · rw [if_neg hbp] at h
          split at h
          · exact absurd h (by simp)
          · next old hget =>
            split at h
            · exact absurd h (by simp)
            · next q2 hset =>
              split at h
              · next evs2 st2 g2 hrec =>
                simp only [Res.ok.injEq, Prod.mk.injEq] at h
                obtain ⟨h1, h2, h3⟩ := h
                subst h2; subst h3
                obtain ⟨hprs, hplen, hpWF⟩ := setItem_props hset
                obtain ⟨i1, i2, i3, i4, i5, i6, ic, i7⟩ := ih hrec
                have hcm := R.choice_mem (BASES.filter (fun b => b != old))
                  (R.randint 0 (q.lenBp - 1) g).2 (bases_filter_ne_nil old)
                have hbmem := (List.mem_filter.mp hcm).1
                have hbne := bne_iff_ne.mp (List.mem_filter.mp hcm).2
                have hsize : ({ st with seq := some q2 } : SimulationState).size = st.size := by
                  simp [SimulationState.size, hseq, RepeatSequence.num_units, hplen]
                have hbpeq : stBpLen { st with seq := some q2 } = stBpLen st := by
                  simp only [stBpLen, hseq]
                  exact lenBp_congr hplen hprs
                have hWFstep : seqWF st = true → seqWF ({ st with seq := some q2 } : SimulationState) = true := by
                  intro hwf
                  rw [seqWF_some { st with seq := some q2 } q2 rfl]
                  exact hpWF ((seqWF_some st q hseq).mp hwf)
                refine ⟨by rw [i1, hsize], by rw [i2], by rw [i3], by rw [i4],
                  by rw [i5, hbpeq], fun hwf => i6 (hWFstep hwf), ?_, ?_⟩
                · rw [← h1]
                  exact SnpChain.cons
                    ⟨q, q2, old, _, hseq, rfl, hget, hset, hbmem, hbne, rfl, rfl, rfl, rfl⟩ ic
                intro e he
                rw [← h1] at he
                rcases List.mem_cons.mp he with heq | hmem
                · subst heq
                  refine ⟨rfl, rfl, ?_, ?_⟩
                  · have hle := R.randint_le 0 (q.lenBp - 1) g (Nat.zero_le _)
                    simp only [stBpLen, hseq]
                    omega
                  · exact ⟨old, _, rfl, hbmem, hbne⟩
                · obtain ⟨j1, j2, j3, j4⟩ := i7 e hmem
                  exact ⟨j1, j2, by rw [← hbpeq]; exact j3, j4⟩
              · exact absurd h (by simp)
              · exact absurd h (by simp)

/-- Claim C8: the events of a SNP phase form a chain of actual mutations
(`SnpChain`): each event's base-pair position, inside `[0, bp_length())`,
was read from the array at that moment as the recorded old base and
overwritten with the recorded new base — one of `BASES`, different from
the old — producing the next state's array, with the event recording kind
`snp`, size 1 and `old->new` details; the phase never changes the unit
count and an empty array yields no events and no state change. -/
theorem snp_phase_correct {σ : Type} (R : RandomModel σ) (p : SimulationParams)
    (st : SimulationState) (g : σ) (evs : List MutationEvent)
    (st' : SimulationState) (g' : σ)
    (h : applySnp R p st g = .ok (evs, st', g')) :
    st'.size = st.size ∧
    (st.size = 0 → evs = [] ∧ st' = st) ∧
    SnpChain st evs st' ∧
    (∀ e ∈ evs, e.event_type = "snp" ∧ e.size = 1 ∧ e.position < stBpLen st ∧
      ∃ a b, e.details = snpDetails a b ∧ b ∈ BASES ∧ b ≠ a) := by
  have h' : snpIterate R (R.poisson p.snp_rate g).1 st (R.poisson p.snp_rate g).2
      = .ok (evs, st', g') := h
  obtain ⟨h1, _, _, _, _, _, hc, h7⟩ := snpIterate_ok h'
  refine ⟨h1, ?_, hc, h7⟩
  intro hz
  rw [snpIterate_size_zero R hz] at h'
  simp only [Res.ok.injEq, Prod.mk.injEq] at h'
  exact ⟨h'.1.symm, h'.2.1.symm⟩

/-- Claim C8, witness: a two-SNP phase on a two-unit array leaves the unit
count at 2. -/
theorem snp_phase_correct_witness :
    (⟨0, some ⟨[['C', 'C'], ['A', 'G']], 2⟩, [], false⟩ : SimulationState).size
      = (initState snpParams).size :=
  (snp_phase_correct streamModel snpParams (initState snpParams) [2, 0, 0, 3, 1]
    [⟨0, "snp", 0, 1, snpDetails 'A' 'C'⟩, ⟨0, "snp", 3, 1, snpDetails 'C' 'G'⟩]
    ⟨0, some ⟨[['C', 'C'], ['A', 'G']], 2⟩, [], false⟩ [] (by decide)).1

theorem take_of_append_len {α : Type} (l₁ l₂ : List α) (n : Nat)
    (h : l₁.length = n) : (l₁ ++ l₂).take n = l₁ := by
  subst h
  simp

theorem drop_of_append_len {α : Type} (l₁ l₂ : List α) (n : Nat)
    (h : l₁.length = n) : (l₁ ++ l₂).drop n = l₂ := by
  subst h
  simp

/-- Claim C1, counterexample: in one process, construct engine A with seed 7,
construct engine B with seed 7, initialize both, step A, then step B.
Both engines received the same constructor arguments and the same single
`step()` call, yet their histories differ (A records one SNP, B records
none), because `__init__` seeds the process-wide generators and A's step
consumed the draws B's step then missed. -/
theorem two_engines_same_seed_diverge :
    interfHist interfFirst ≠ interfHist interfSecond ∧
    (interfHist interfFirst).isSome = true ∧
    (interfHist interfSecond).isSome = true := by
  decide

/-- Claim C1, amended: randomness comes from the process-wide random state,
which construction with a seed fully overwrites; hence a single engine
constructed with `(seed, params)` and then driven by any sequence of
`initialize()`/`step()`/`run()` calls with no other consumer of the global
state produces a history and final state that depend only on the seed, the
params and the call sequence — not on the pre-existing global random
state. -/
theorem seeded_engine_run_deterministic {σ : Type} (R : RandomModel σ)
    (p : SimulationParams) (s : Nat) (fuel : Nat) (calls : List DriveCall)
    (g g' : σ) :
    drive R fuel calls (mkSimulator R p (some s) g).1 (mkSimulator R p (some s) g).2
      = drive R fuel calls (mkSimulator R p (some s) g').1 (mkSimulator R p (some s) g').2 := by
  rfl

/-- Claim C2, counterexample: the forced-collapse scenario
(`min_array_size=5, initial_size=5, indel_rate=10, bounding_enabled,
max_consecutive_failures=3`) run against a random stream that requests one
indel and then keeps proposing a size-1 deletion at position 0.  Every
proposal is rejected by the `min_array_size` floor, so `consecutive_failures`
passes 3 (and keeps growing past it: ten rejections fit in fuel 10), yet the
engine never sets `Collapsed` and the phase loop is still running — the
counter is only compared against the maximum in the out-of-range branch. -/
theorem floor_rejections_never_collapse :
    applyIndels streamModel collapseParams 10 (initState collapseParams) [1] = .spin := by
  decide

/-- Claim C4, counterexample: no `ConfigError` exists anywhere in the code.
`from_monomer` with `copy_count = 0` returns an empty array,
`SimulationParams(initial_size=0)` followed by `initialize()` succeeds and
yields a live zero-unit state, and zero-length duplicate/delete ranges are
silently accepted as no-ops. -/
theorem invalid_config_not_rejected :
    (RepeatSequence.from_monomer DEFAULT_MONOMER 0).units = [] ∧
    (initState { initial_size := 0 }).size = 0 ∧
    (initState { initial_size := 0 }).collapsed = false ∧
    RepeatSequence.duplicate_units ⟨[['A']], 1⟩ 1 1 = ⟨[['A']], 1⟩ ∧
    RepeatSequence.delete_units ⟨[['A']], 1⟩ 1 1 = ⟨[['A']], 1⟩ := by
  decide

/-- Claim C4, amended: invalid construction input is accepted, not rejected:
`from_monomer` with a non-positive `copy_count` returns an empty repeat
array; constructing params with `initial_size = 0` and initializing yields
a non-collapsed zero-unit state (no error); a zero-length duplicate or
delete range leaves the array unchanged. -/
theorem invalid_config_flows_through :
    (∀ (m : List Char) (n : Int), n ≤ 0 →
      (RepeatSequence.from_monomer m n).units = []) ∧
    (∀ p : SimulationParams, p.initial_size = 0 →
      (initState p).size = 0 ∧ (initState p).collapsed = false) ∧
    (∀ (rs : RepeatSequence) (s : Nat),
      rs.duplicate_units s s = rs ∧ rs.delete_units s s = rs) := by
  refine ⟨?_, ?_, ?_⟩
  · intro m n hn
    simp [RepeatSequence.from_monomer, Int.toNat_of_nonpos hn]
  · intro p hp
    constructor
    · simp [initState, SimulationState.size, RepeatSequence.from_monomer,
        RepeatSequence.num_units, hp]
    · rfl
  · intro rs s
    obtain ⟨units, rsz⟩ := rs
    constructor
    · simp [RepeatSequence.duplicate_units]
    · simp [RepeatSequence.delete_units]

/-- Claim C4, amended, witness at `copy_count = 0`. -/
theorem invalid_config_flows_through_witness :
    (RepeatSequence.from_monomer DEFAULT_MONOMER 0).units = [] :=
  invalid_config_flows_through.1 DEFAULT_MONOMER 0 (by decide)

/-- Claim C5: `Collapsed` is terminal — `step()` on a collapsed state
returns an empty event list and the state and random state unchanged;
`run(n)` on a collapsed state stops at once for every remaining count;
and re-initialization is the operation that resets the flag. -/
theorem collapsed_terminal {σ : Type} (R : RandomModel σ) (p : SimulationParams)
    (fuel n : Nat) (st : SimulationState) (g : σ) (hc : st.collapsed = true) :
    step R p fuel st g = .ok ([], st, g) ∧
    run R p fuel n st g = .ok (st, g) ∧
    (initState p).collapsed = false := by
  refine ⟨?_, ?_, rfl⟩
  · simp [step, hc]
  · cases n <;> simp [run, hc]

/-- Claim C5, witness: a concrete collapsed state is left untouched. -/
theorem collapsed_terminal_witness :
    step streamModel { } 1 ⟨3, none, [], true⟩ [] = .ok ([], ⟨3, none, [], true⟩, []) :=
  (collapsed_terminal streamModel { } 1 4 ⟨3, none, [], true⟩ [] rfl).1

/-- Claim C7: for a valid range `0 ≤ start < end ≤ unit_count`,
`duplicate(start, end)` adds `end - start` units, and following it with
`delete(end, end + (end - start))` restores the original array exactly. -/
theorem duplicate_delete_inverse (rs : RepeatSequence) (s e : Nat)
    (h1 : s < e) (h2 : e ≤ rs.num_units) :
    (rs.duplicate_units s e).num_units = rs.num_units + (e - s) ∧
    (rs.duplicate_units s e).delete_units e (e + (e - s)) = rs := by
  obtain ⟨units, rsz⟩ := rs
  simp only [RepeatSequence.num_units] at h2 ⊢
  have hA : (units.take e).length = e := by
    simp only [List.length_take]
    omega
  have hB : ((units.drop s).take (e - s)).length = e - s := by
    simp only [List.length_take, List.length_drop]
    omega
  constructor
  · simp only [RepeatSequence.duplicate_units, RepeatSequence.num_units,
      List.length_append, hA, hB, List.length_drop]
    omega
  · simp only [RepeatSequence.duplicate_units, RepeatSequence.delete_units,
      RepeatSequence.mk.injEq, and_true]
    have hmax : max e (e + (e - s)) = e + (e - s) := by omega
    rw [hmax, List.append_assoc]
    have htake : (units.take e ++ ((units.drop s).take (e - s) ++ units.drop e)).take e
        = units.take e := take_of_append_len _ _ _ hA
    have hdrop : (units.take e ++ ((units.drop s).take (e - s) ++ units.drop e)).drop (e + (e - s))
        = units.drop e := by
      rw [show units.take e ++ ((units.drop s).take (e - s) ++ units.drop e)
          = (units.take e ++ (units.drop s).take (e - s)) ++ units.drop e from
          (List.append_assoc _ _ _).symm]
      exact drop_of_append_len _ _ _ (by simp [hA, hB])
    rw [htake, hdrop, List.take_append_drop]

/-- Claim C7, witness: duplicating `[1, 3)` of a four-unit array and
deleting `[3, 5)` of the result restores the array. -/
theorem duplicate_delete_inverse_witness :
    (RepeatSequence.duplicate_units ⟨[['A'], ['C'], ['G'], ['T']], 1⟩ 1 3).num_units = 4 + 2 ∧
    (RepeatSequence.duplicate_units ⟨[['A'], ['C'], ['G'], ['T']], 1⟩ 1 3).delete_units 3 (3 + 2)
      = ⟨[['A'], ['C'], ['G'], ['T']], 1⟩ :=
  duplicate_delete_inverse ⟨[['A'], ['C'], ['G'], ['T']], 1⟩ 1 3 (by decide) (by decide)

theorem step_collapsed {σ : Type} {R : RandomModel σ} {p : SimulationParams}
    {fuel : Nat} {st : SimulationState} {g : σ} (h : st.collapsed = true) :
    step R p fuel st g = .ok ([], st, g) := by
  simp [step, h]

theorem dup_num_units {q : RepeatSequence} {a b : Nat} (hb : b ≤ q.num_units) :
    (q.duplicate_units a b).num_units = q.num_units + (b - a) := by
  simp only [RepeatSequence.num_units] at hb
  simp only [RepeatSequence.duplicate_units, RepeatSequence.num_units,
    List.length_append, List.length_take, List.length_drop]
  omega

theorem del_num_units_le {q : RepeatSequence} (a b : Nat) :
    (q.delete_units a b).num_units ≤ q.num_units := by
  simp only [RepeatSequence.delete_units, RepeatSequence.num_units,
    List.length_append, List.length_take, List.length_drop]
  omega

theorem dup_WF {q : RepeatSequence} {a b : Nat}
    (h : ∀ u ∈ q.units, u.length = q.repeat_size) :
    ∀ u ∈ (q.duplicate_units a b).units, u.length = (q.duplicate_units a b).repeat_size := by
  intro u hu
  simp only [RepeatSequence.duplicate_units] at hu ⊢
  rcases List.mem_append.mp hu with h1 | h2
  · rcases List.mem_append.mp h1 with h3 | h4
    · exact h u (List.take_subset _ _ h3)
    · exact h u (List.drop_subset _ _ (List.take_subset _ _ h4))
  · exact h u (List.drop_subset _ _ h2)

theorem del_WF {q : RepeatSequence} {a b : Nat}
    (h : ∀ u ∈ q.units, u.length = q.repeat_size) :
    ∀ u ∈ (q.delete_units a b).units, u.length = (q.delete_units a b).repeat_size := by
  intro u hu
  simp only [RepeatSequence.delete_units] at hu ⊢
  rcases List.mem_append.mp hu with h1 | h2
  · exact h u (List.take_subset _ _ h1)
  · exact h u (List.drop_subset _ _ h2)

theorem indelIterate_ok {σ : Type} {R : RandomModel σ} {p : SimulationParams}
    {nIndels : Nat} {fuel count failures : Nat} {st : SimulationState} {g : σ}
    {evs : List MutationEvent} {st' : SimulationState} {g' : σ} :
    indelIterate R p nIndels fuel count failures st g = .ok (evs, st', g') →
    st'.generation = st.generation ∧ st'.history = st.history ∧
    (p.bounding_enabled = true → (st.size : Int) ≤ p.max_array_size →
      (st'.size : Int) ≤ p.max_array_size) ∧
    (seqWF st = true → seqWF st' = true) := by
  induction fuel generalizing count failures st g evs st' g' with
  | zero =>
    intro h
    simp only [indelIterate] at h
    split at h
    · simp only [Res.ok.injEq, Prod.mk.injEq] at h
      obtain ⟨h1, h2, h3⟩ := h
      subst h2
      exact ⟨rfl, rfl, fun _ hx => hx, fun x => x⟩
    · exact absurd h (by simp)
  | succ fuel ih =>
    intro h
    simp only [indelIterate] at h
    split at h
    · simp only [Res.ok.injEq, Prod.mk.injEq] at h
      obtain ⟨h1, h2, h3⟩ := h
      subst h2
      exact ⟨rfl, rfl, fun _ hx => hx, fun x => x⟩
    · split at h
      · simp only [Res.ok.injEq, Prod.mk.injEq] at h
        obtain ⟨h1, h2, h3⟩ := h
        subst h2
        exact ⟨rfl, rfl, fun _ hx => hx, fun x => x⟩
      · split at h
        · exact absurd h (by simp)
        · next q hseq =>
          have hq : st.size = q.num_units := by simp [SimulationState.size, hseq]
          generalize hS : max 1 (R.poisson p.indel_size_lambda (R.choiceBool g).2).1 = sz at h
          generalize hA : (R.randint 0 (st.size - 1) (R.poisson p.indel_size_lambda (R.choiceBool g).2).2).1 = a at h
          split at h
          · split at h
            · simp only [Res.ok.injEq, Prod.mk.injEq] at h
              obtain ⟨h1, h2, h3⟩ := h
              subst h2
              exact ⟨rfl, rfl, fun _ hx => hx, fun x => x⟩
            · exact ih h
          · next hrange =>
            have hb2 : a + sz ≤ q.num_units := by omega
            split at h
            · split at h
              · exact ih h
              · next hguard =>
                split at h
                · next evs2 st2 g2 hrec =>
                  simp only [Res.ok.injEq, Prod.mk.injEq] at h
                  obtain ⟨h1, h2, h3⟩ := h
                  subst h2
                  obtain ⟨i1, i2, i3, i4⟩ := ih hrec
                  have hsz : ({ st with seq := some (q.duplicate_units a (a + sz)) } :
                      SimulationState).size = st.size + sz := by
                    show (q.duplicate_units a (a + sz)).num_units = st.size + sz
                    rw [dup_num_units hb2, Nat.add_sub_cancel_left, ← hq]
                  refine ⟨i1, i2, ?_, ?_⟩
                  · intro hbe hub
                    apply i3 hbe
                    rw [hsz]
                    rw [Bool.not_eq_true, Bool.and_eq_false_iff] at hguard
                    rcases hguard with hg1 | hg2
                    · rw [hbe] at hg1
                      exact absurd hg1 (by simp)
                    · have hg3 := of_decide_eq_false hg2
                      push_cast
                      push_cast at hg3 hub
                      omega
                  · intro hwf
                    apply i4
                    rw [seqWF_some { st with seq := some (q.duplicate_units a (a + sz)) } _ rfl]
                    exact dup_WF ((seqWF_some st q hseq).mp hwf)
                · exact absurd h (by simp)
                · exact absurd h (by simp)
            · split at h
              · exact ih h
              · split at h
                · next evs2 st2 g2 hrec =>
                  simp only [Res.ok.injEq, Prod.mk.injEq] at h
                  obtain ⟨h1, h2, h3⟩ := h
                  subst h2
                  obtain ⟨i1, i2, i3, i4⟩ := ih hrec
                  have hsz : ({ st with seq := some (q.delete_units a (a + sz)) } :
                      SimulationState).size ≤ st.size := by
                    show (q.delete_units a (a + sz)).num_units ≤ st.size
                    rw [hq]
                    exact del_num_units_le _ _
                  refine ⟨i1, i2, ?_, ?_⟩
                  · intro hbe hub
                    apply i3 hbe
                    have hcast : (({ st with seq := some (q.delete_units a (a + sz)) } :
                        SimulationState).size : Int) ≤ (st.size : Int) := by exact_mod_cast hsz
                    omega
                  · intro hwf
                    apply i4
                    rw [seqWF_some { st with seq := some (q.delete_units a (a + sz)) } _ rfl]
                    exact del_WF ((seqWF_some st q hseq).mp hwf)
                · exact absurd h (by simp)
                · exact absurd h (by simp)

theorem applyIndels_ok {σ : Type} {R : RandomModel σ} {p : SimulationParams}
    {fuel : Nat} {st : SimulationState} {g : σ}
    {evs : List MutationEvent} {st' : SimulationState} {g' : σ} :
    applyIndels R p fuel st g = .ok (evs, st', g') →
    st'.generation = st.generation ∧ st'.history = st.history ∧
    (p.bounding_enabled = true → (st.size : Int) ≤ p.max_array_size →
      (st'.size : Int) ≤ p.max_array_size) ∧
    (seqWF st = true → seqWF st' = true) ∧
    (st'.collapsed = false → p.min_array_size ≤ (st'.size : Int)) := by
  intro h
  simp only [applyIndels] at h
  split at h
  · next evs2 st2 g2 hloop =>
    obtain ⟨i1, i2, i3, i4⟩ := indelIterate_ok hloop
    simp only [Res.ok.injEq, Prod.mk.injEq] at h
    obtain ⟨h1, h2, h3⟩ := h
    subst h2
    by_cases hc : (st2.size : Int) < p.min_array_size
    · rw [if_pos hc]
      refine ⟨i1, i2, fun hbe hub => i3 hbe hub, i4, ?_⟩
      intro hfalse
      exact absurd hfalse (by simp)
    · rw [if_neg hc]
      exact ⟨i1, i2, i3, i4, fun _ => by omega⟩
  · exact absurd h (by simp)
  · exact absurd h (by simp)

theorem step_ok_props {σ : Type} {R : RandomModel σ} {p : SimulationParams}
    {fuel : Nat} {st : SimulationState} {g : σ}
    {evs : List MutationEvent} {st' : SimulationState} {g' : σ}
    (hc : st.collapsed = false) :
    step R p fuel st g = .ok (evs, st', g') →
    st'.generation = st.generation + 1 ∧ st'.history = st.history ++ evs ∧
    (p.bounding_enabled = true → (st.size : Int) ≤ p.max_array_size →
      (st'.size : Int) ≤ p.max_array_size) ∧
    (seqWF st = true → seqWF st' = true) ∧
    (st'.collapsed = false → p.min_array_size ≤ (st'.size : Int)) := by
  intro h
  simp only [step, hc, Bool.false_eq_true, if_false] at h
  split at h
  · next ev1 st2 g2 hsnp =>
    split at h
    · next ev2 st3 g3 hind =>
      simp only [Res.ok.injEq, Prod.mk.injEq] at h
      obtain ⟨h1, h2, h3⟩ := h
      subst h2
      have hsnp' : snpIterate R (R.poisson p.snp_rate g).1
          { st with generation := st.generation + 1, collapsed := false }
          (R.poisson p.snp_rate g).2 = .ok (ev1, st2, g2) := hsnp
      obtain ⟨s1, s2, s3, s4, s5, s6, _⟩ := snpIterate_ok hsnp'
      obtain ⟨a1, a2, a3, a4, a5⟩ := applyIndels_ok hind
      refine ⟨?_, ?_, ?_, ?_, ?_⟩
      · show st3.generation = st.generation + 1
        rw [a1, s3]
      · show st3.history ++ (ev1 ++ ev2) = st.history ++ evs
        rw [a2, s4, h1]
      · intro hbe hub
        show ((st3.size : Int)) ≤ p.max_array_size
        apply a3 hbe
        rw [s1]
        exact hub
      · intro hwf
        show seqWF { st3 with history := st3.history ++ (ev1 ++ ev2) } = true
        have : seqWF st3 = true := a4 (s6 hwf)
        simpa [seqWF] using this
      · intro hcol
        show p.min_array_size ≤ (st3.size : Int)
        exact a5 hcol
    · exact absurd h (by simp)
    · exact absurd h (by simp)
  · exact absurd h (by simp)
  · exact absurd h (by simp)

/-- Claim C3: with bounding enabled and an initial size inside the bounds,
every non-collapsed generation boundary reachable from `initialize()`
satisfies `min_array_size <= unit_count() <= max_array_size`. -/
theorem bound_invariant {σ : Type} (R : RandomModel σ) (p : SimulationParams)
    (g0 : σ) (st : SimulationState) (g : σ)
    (hb : p.bounding_enabled = true)
    (hmin : p.min_array_size ≤ ((initState p).size : Int))
    (hmax : ((initState p).size : Int) ≤ p.max_array_size)
    (hr : Reachable R p (initState p) g0 st g)
    (hc : st.collapsed = false) :
    p.min_array_size ≤ (st.size : Int) ∧ (st.size : Int) ≤ p.max_array_size := by
  revert hc
  induction hr with
  | refl => exact fun _ => ⟨hmin, hmax⟩
  | next hprev hstep ih =>
    intro hc2
    next st1 g1 fuel ev st2 g2 =>
    by_cases hcol : st1.collapsed = true
    · rw [step_collapsed hcol] at hstep
      simp only [Res.ok.injEq, Prod.mk.injEq] at hstep
      obtain ⟨_, hst, _⟩ := hstep
      subst hst
      rw [hcol] at hc2
      exact absurd hc2 (by simp)
    · have hcol' : st1.collapsed = false := by
        rw [Bool.not_eq_true] at hcol
        exact hcol
      have hb1 := ih hcol'
      obtain ⟨_, _, hub, _, hlb⟩ := step_ok_props hcol' hstep
      exact ⟨hlb hc2, hub hb hb1.2⟩

/-- Claim C3, witness: after one completed step of a bounded two-unit
configuration the unit count is still inside `[1, 10]`. -/
theorem bound_invariant_witness :
    smallParams.min_array_size
        ≤ (((⟨1, some ⟨[['A'], ['A']], 1⟩, [], false⟩ : SimulationState)).size : Int) ∧
    (((⟨1, some ⟨[['A'], ['A']], 1⟩, [], false⟩ : SimulationState)).size : Int)
        ≤ smallParams.max_array_size :=
  bound_invariant streamModel smallParams [] ⟨1, some ⟨[['A'], ['A']], 1⟩, [], false⟩ []
    rfl (by decide) (by decide)
    (Reachable.next Reachable.refl
      (by decide : step streamModel smallParams 1 (initState smallParams) []
        = .ok ([], ⟨1, some ⟨[['A'], ['A']], 1⟩, [], false⟩, []))) rfl

/-- Claim C6: at every reachable generation boundary every unit of the
repeat array has length exactly `repeat_size` and
`bp_length() == unit_count() * repeat_size`; both are established by
`initialize()` and preserved by every SNP, duplication and deletion a
`step()` applies. -/
theorem structural_invariant {σ : Type} (R : RandomModel σ) (p : SimulationParams)
    (g0 : σ) (st : SimulationState) (g : σ)
    (hr : Reachable R p (initState p) g0 st g) :
    seqWF st = true ∧ bpOK st = true := by
  have hbp : ∀ s : SimulationState, bpOK s = true := by
    intro s
    unfold bpOK
    cases hs : s.seq with
    | none => rfl
    | some q =>
      unfold RepeatSequence.lenBp RepeatSequence.num_units
      by_cases h : q.units = []
      · simp [h]
      · simp [h]
  refine ⟨?_, hbp st⟩
  induction hr with
  | refl =>
    rw [seqWF_some (initState p) _ rfl]
    intro u hu
    simp only [RepeatSequence.from_monomer] at hu
    rw [List.eq_of_mem_replicate hu]
    rfl
  | next hprev hstep ih =>
    next st1 g1 fuel ev st2 g2 =>
    by_cases hcol : st1.collapsed = true
    · rw [step_collapsed hcol] at hstep
      simp only [Res.ok.injEq, Prod.mk.injEq] at hstep
      obtain ⟨_, hst, _⟩ := hstep
      subst hst
      exact ih
    · have hcol' : st1.collapsed = false := by
        rw [Bool.not_eq_true] at hcol
        exact hcol
      exact (step_ok_props hcol' hstep).2.2.2.1 ih

/-- Claim C6, witness: the invariant holds at a concrete boundary reached
by one completed step. -/
theorem structural_invariant_witness :
    seqWF ⟨1, some ⟨[['A'], ['A']], 1⟩, [], false⟩ = true ∧
    bpOK ⟨1, some ⟨[['A'], ['A']], 1⟩, [], false⟩ = true :=
  structural_invariant streamModel smallParams [] ⟨1, some ⟨[['A'], ['A']], 1⟩, [], false⟩ []
    (Reachable.next Reachable.refl
      (by decide : step streamModel smallParams 2 (initState smallParams) []
        = .ok ([], ⟨1, some ⟨[['A'], ['A']], 1⟩, [], false⟩, [])))

theorem applySnp_zero {σ : Type} {R : RandomModel σ} {p : SimulationParams}
    {st : SimulationState} {g : σ} (hs : p.snp_rate = 0) :
    applySnp R p st g = .ok ([], st, (R.poisson p.snp_rate g).2) := by
  show snpIterate R (R.poisson p.snp_rate g).1 st (R.poisson p.snp_rate g).2 = _
  rw [R.poisson_zero p.snp_rate g hs]
  rfl

theorem applyIndels_zero {σ : Type} {R : RandomModel σ} {p : SimulationParams}
    {fuel : Nat} {st : SimulationState} {g : σ} (hi : p.indel_rate = 0) :
    applyIndels R p fuel st g
      = .ok ([], if (st.size : Int) < p.min_array_size then { st with collapsed := true } else st,
          (R.poisson p.indel_rate g).2) := by
  simp only [applyIndels]
  have hloop : indelIterate R p (R.poisson p.indel_rate g).1 fuel 0 0 st (R.poisson p.indel_rate g).2
      = .ok ([], st, (R.poisson p.indel_rate g).2) := by
    rw [R.poisson_zero p.indel_rate g hi]
    cases fuel <;> simp [indelIterate]
  simp only [hloop]

theorem step_zero_rates {σ : Type} {R : RandomModel σ} {p : SimulationParams}
    {fuel : Nat} {st : SimulationState} {g : σ}
    {evs : List MutationEvent} {st' : SimulationState} {g' : σ}
    (hs : p.snp_rate = 0) (hi : p.indel_rate = 0) :
    step R p fuel st g = .ok (evs, st', g') →
    evs = [] ∧ st'.seq = st.seq ∧ st'.history = st.history := by
  intro h
  by_cases hc : st.collapsed = true
  · rw [step_collapsed hc] at h
    simp only [Res.ok.injEq, Prod.mk.injEq] at h
    obtain ⟨h1, h2, h3⟩ := h
    subst h2
    exact ⟨h1.symm, rfl, rfl⟩
  · have hc' : st.collapsed = false := by
      rw [Bool.not_eq_true] at hc
      exact hc
    simp only [step, hc', Bool.false_eq_true, if_false] at h
    split at h
    · next ev1 st2 g2 hsnp0 =>
      rw [applySnp_zero hs] at hsnp0
      simp only [Res.ok.injEq, Prod.mk.injEq] at hsnp0
      obtain ⟨he1, he2, he3⟩ := hsnp0
      subst he2
      split at h
      · next ev2 st3 g3 hind0 =>
        rw [applyIndels_zero hi] at hind0
        simp only [Res.ok.injEq, Prod.mk.injEq] at hind0
        obtain ⟨hf1, hf2, hf3⟩ := hind0
        simp only [Res.ok.injEq, Prod.mk.injEq] at h
        obtain ⟨hg1, hg2, hg3⟩ := h
        subst hg2
        refine ⟨by rw [← hg1, ← he1, ← hf1]; rfl, ?_, ?_⟩
        · show st3.seq = st.seq
          rw [← hf2]
          split <;> rfl
        · show st3.history ++ (ev1 ++ ev2) = st.history
          rw [← he1, ← hf1, ← hf2]
          split <;> simp
      · exact absurd h (by simp)
      · exact absurd h (by simp)
    · exact absurd h (by simp)
    · exact absurd h (by simp)

/-- Claim C9: with `snp_rate = 0` and `indel_rate = 0`, `run(n)` from an
initialized engine leaves the repeat array (unit count and every unit's
content) unchanged and produces an empty history. -/
theorem zero_rate_noop {σ : Type} (R : RandomModel σ) (p : SimulationParams)
    (fuel n : Nat) (g : σ) (st' : SimulationState) (g' : σ)
    (hs : p.snp_rate = 0) (hi : p.indel_rate = 0)
    (h : run R p fuel n (initState p) g = .ok (st', g')) :
    st'.seq = (initState p).seq ∧ st'.history = [] := by
  suffices H : ∀ (n : Nat) (st : SimulationState) (g : σ) (st' : SimulationState) (g' : σ),
      run R p fuel n st g = .ok (st', g') → st'.seq = st.seq ∧ st'.history = st.history by
    obtain ⟨hh1, hh2⟩ := H n (initState p) g st' g' h
    exact ⟨hh1, hh2⟩
  intro n
  induction n with
  | zero =>
    intro st g st' g' h
    simp only [run, Res.ok.injEq, Prod.mk.injEq] at h
    obtain ⟨h1, h2⟩ := h
    subst h1
    exact ⟨rfl, rfl⟩
  | succ n ihn =>
    intro st g st' g' h
    simp only [run] at h
    by_cases hc : st.collapsed = true
    · rw [if_pos hc] at h
      simp only [Res.ok.injEq, Prod.mk.injEq] at h
      obtain ⟨h1, h2⟩ := h
      subst h1
      exact ⟨rfl, rfl⟩
    · rw [if_neg hc] at h
      split at h
      · next ev st2 g2 hstep =>
        obtain ⟨_, hseq2, hhist2⟩ := step_zero_rates hs hi hstep
        obtain ⟨hseq3, hhist3⟩ := ihn st2 g2 st' g' h
        exact ⟨hseq3.trans hseq2, hhist3.trans hhist2⟩
      · exact absurd h (by simp)
      · exact absurd h (by simp)

/-- Claim C9, witness: two zero-rate generations leave the three-unit
array and the empty history untouched. -/
theorem zero_rate_noop_witness :
    (⟨2, some ⟨[['A'], ['A'], ['A']], 1⟩, [], false⟩ : SimulationState).seq
        = (initState zeroRateParams).seq ∧
    (⟨2, some ⟨[['A'], ['A'], ['A']], 1⟩, [], false⟩ : SimulationState).history
        = ([] : List MutationEvent) :=
  zero_rate_noop streamModel zeroRateParams 1 2 []
    ⟨2, some ⟨[['A'], ['A'], ['A']], 1⟩, [], false⟩ [] rfl rfl (by decide)

theorem step_eq {σ : Type} {R : RandomModel σ} {p : SimulationParams} {fuel : Nat}
    {st : SimulationState} {g : σ} {ev1 ev2 : List MutationEvent}
    {st2 st3 : SimulationState} {g2 g3 : σ}
    (hc : st.collapsed = false)
    (h1 : applySnp R p { st with generation := st.generation + 1, collapsed := false } g
       = .ok (ev1, st2, g2))
    (h2 : applyIndels R p fuel st2 g2 = .ok (ev2, st3, g3)) :
    step R p fuel st g
      = .ok (ev1 ++ ev2, { st3 with history := st3.history ++ (ev1 ++ ev2) }, g3) := by
  simp only [step, hc, Bool.false_eq_true, if_false, h1, h2]

theorem applyIndels_size_zero {σ : Type} (R : RandomModel σ) (p : SimulationParams)
    (fuel : Nat) (st : SimulationState) (g : σ)
    (hsz : st.size = 0) (hmin : 0 < p.min_array_size) (hfuel : 1 ≤ fuel) :
    applyIndels R p fuel st g
      = .ok ([], { st with collapsed := true }, (R.poisson p.indel_rate g).2) := by
  simp only [applyIndels]
  have hint : ((st.size : Int) < p.min_array_size) := by
    rw [hsz]
    exact_mod_cast hmin
  cases hn : (R.poisson p.indel_rate g).1 with
  | zero =>
    have hloop : indelIterate R p 0 fuel 0 0 st (R.poisson p.indel_rate g).2
        = .ok ([], st, (R.poisson p.indel_rate g).2) := by
      cases fuel <;> simp [indelIterate]
    simp only [hn, hloop, if_pos hint]
  | succ m =>
    obtain ⟨f, rfl⟩ : ∃ f, fuel = f + 1 := ⟨fuel - 1, by omega⟩
    have hloop : indelIterate R p (m + 1) (f + 1) 0 0 st (R.poisson p.indel_rate g).2
        = .ok ([], { st with collapsed := true }, (R.poisson p.indel_rate g).2) := by
      simp [indelIterate, hsz]
    have hint2 : ((({ st with collapsed := true } : SimulationState).size : Int)
        < p.min_array_size) := hint
    simp only [hn, hloop, if_pos hint2]

/-- Claim C10: `step()` on an engine that was never initialized does not
raise: it returns an empty event list and the state with generation 1,
no array, empty history and `collapsed = true`, for any params with a
positive `min_array_size` (and any fuel admitting one loop iteration). -/
theorem uninitialized_step_collapses {σ : Type} (R : RandomModel σ)
    (p : SimulationParams) (g : σ) (fuel : Nat)
    (hmin : 0 < p.min_array_size) (hfuel : 1 ≤ fuel) :
    stepView (step R p fuel freshState g) = some ([], ⟨1, none, [], true⟩) := by
  have h1 : applySnp R p
      { freshState with generation := freshState.generation + 1, collapsed := false } g
      = .ok ([], { freshState with generation := freshState.generation + 1, collapsed := false },
          (R.poisson p.snp_rate g).2) := by
    show snpIterate R (R.poisson p.snp_rate g).1 _ _ = _
    exact snpIterate_size_zero R rfl
  have h2 := applyIndels_size_zero R p fuel
    { freshState with generation := freshState.generation + 1, collapsed := false }
    (R.poisson p.snp_rate g).2 rfl hmin hfuel
  rw [step_eq rfl h1 h2]
  rfl

/-- Claim C10, witness: the concrete uninitialized step at `fuel = 1`. -/
theorem uninitialized_step_collapses_witness :
    stepView (step streamModel smallParams 1 freshState []) = some ([], ⟨1, none, [], true⟩) :=
  uninitialized_step_collapses streamModel smallParams [] 1 (by decide) (by decide)

/-- Claim C2, amended: the failure counter is compared against
`max_consecutive_failures` only in the out-of-range branch: whenever an
out-of-range attempt (`unit_end > unit_count`) raises the counter to at
least the maximum, the engine sets `Collapsed` and abandons the remaining
requested events for the generation; duplications rejected by
`max_array_size` and deletions rejected by `min_array_size` increment the
counter but never trigger the check, so reaching the maximum through such
rejections alone does not collapse the engine and does not stop the
phase loop. -/
theorem out_of_range_failure_collapse {σ : Type} (R : RandomModel σ)
    (p : SimulationParams) (n count failures fuel : Nat)
    (st : SimulationState) (q : RepeatSequence) (g : σ)
    (hseq : st.seq = some q) (hsz : ¬ st.size = 0) (hcount : count < n)
    (hrange : st.size
        < (R.randint 0 (st.size - 1) (R.poisson p.indel_size_lambda (R.choiceBool g).2).2).1
          + max 1 (R.poisson p.indel_size_lambda (R.choiceBool g).2).1)
    (hfail : p.max_consecutive_failures ≤ failures + 1) :
    indelIterate R p n (fuel + 1) count failures st g
      = .ok ([], { st with collapsed := true },
          (R.randint 0 (st.size - 1) (R.poisson p.indel_size_lambda (R.choiceBool g).2).2).2) := by
  have h1 : ¬ (n ≤ count) := by omega
  simp only [indelIterate, if_neg h1, if_neg hsz, hseq, if_pos hrange, if_pos hfail]

/-- Claim C2, amended, witness: in the forced-collapse scenario an
out-of-range deletion attempt that lifts the counter from 2 to the
maximum 3 collapses the engine with all five units intact. -/
theorem out_of_range_failure_collapse_witness :
    indelIterate streamModel collapseParams 1 4 0 2 (initState collapseParams) [0, 7, 0]
      = .ok ([], { initState collapseParams with collapsed := true }, []) :=
  out_of_range_failure_collapse streamModel collapseParams 1 0 2 3
    (initState collapseParams) (RepeatSequence.from_monomer ['A'] 5) [0, 7, 0]
    rfl (by decide) (by decide) (by decide) (by decide)
